import Mathlib

/-! The `use_qa_backend` service: an embedding of `server.js`.

A shallow embedding of the non-ML glue of `src/use_qa_backend/server.js`:

* `cosineSimilarity` (server.js lines 133-138),
* the linear scan of the `/answer` handler (lines 117-127),
* the two HTTP handlers `/embed` (lines 67-78) and `/answer` (lines 106-130),
* the start-up sequence `use.load().then(...)` (lines 21-37) as a step relation.

Numbers.  A JavaScript number is modelled by `JSNum α`: a finite value of an
ordered field `α`, `+Infinity`, `-Infinity` or `NaN`.  The sign of zero is not
tracked; every zero divisor that `cosineSimilarity` can produce is `+0`.
Embedding vectors are lists of finite numbers, reading past the end of a list
gives `undefined`, which arithmetic converts to `NaN`.

The numeric code is embedded twice.

* `cosineSimilarity`, `scanFrom`, `bestMatch`: arithmetic on finite values is
  exact (no rounding, no overflow), with `Math.sqrt` a parameter
  `sqrt : α → α`.  This is the idealisation "exact real arithmetic"; its
  theorems instantiate `α := ℝ` and `sqrt := Real.sqrt`.
* `cosineSimilarityF64`, `scanFromF64`, `bestMatchF64`: the same code on
  IEEE 754 binary64 values, every operation rounded.  This is what the
  program computes; statements that fail on it are refuted here.
-/

namespace UseQa

/-! ## JavaScript numbers -/

/-- A JavaScript number: finite, plus or minus infinity, or NaN. -/
inductive JSNum (α : Type) where
  | fin (x : α)
  | posInf
  | negInf
  | nan
  deriving DecidableEq, Repr

namespace JSNum

variable {α : Type} [LinearOrderedField α]

/-- JavaScript `x + y`. -/
def add : JSNum α → JSNum α → JSNum α
  | nan, _ => nan
  | _, nan => nan
  | fin x, fin y => fin (x + y)
  | fin _, posInf => posInf
  | fin _, negInf => negInf
  | posInf, negInf => nan
  | posInf, _ => posInf
  | negInf, posInf => nan
  | negInf, _ => negInf

/-- The product of an infinity of sign `pos` with the finite number `x`. -/
def infTimes (pos : Bool) (x : α) : JSNum α :=
  if x = 0 then nan
  else if decide (0 < x) = pos then posInf
  else negInf

/-- JavaScript `x * y`. -/
def mul : JSNum α → JSNum α → JSNum α
  | nan, _ => nan
  | _, nan => nan
  | fin x, fin y => fin (x * y)
  | fin x, posInf => infTimes true x
  | fin x, negInf => infTimes false x
  | posInf, fin y => infTimes true y
  | negInf, fin y => infTimes false y
  | posInf, posInf => posInf
  | posInf, negInf => negInf
  | negInf, posInf => negInf
  | negInf, negInf => posInf

/-- JavaScript `x / y`; a zero divisor is taken to be `+0`. -/
def div : JSNum α → JSNum α → JSNum α
  | nan, _ => nan
  | _, nan => nan
  | fin x, fin y =>
      if y = 0 then
        (if x = 0 then nan else if 0 < x then posInf else negInf)
      else fin (x / y)
  | fin _, posInf => fin 0
  | fin _, negInf => fin 0
  | posInf, fin y => if 0 ≤ y then posInf else negInf
  | negInf, fin y => if 0 ≤ y then negInf else posInf
  | posInf, posInf => nan
  | posInf, negInf => nan
  | negInf, posInf => nan
  | negInf, negInf => nan

/-- JavaScript `Math.sqrt(x)`, with `sqrt` the square root of finite
non-negative numbers. -/
def sqrtJS (sqrt : α → α) : JSNum α → JSNum α
  | fin x => if x < 0 then nan else fin (sqrt x)
  | posInf => posInf
  | negInf => nan
  | nan => nan

/-- JavaScript `x > y`: false as soon as one side is NaN. -/
def gt : JSNum α → JSNum α → Bool
  | nan, _ => false
  | _, nan => false
  | fin x, fin y => decide (y < x)
  | fin _, posInf => false
  | fin _, negInf => true
  | posInf, posInf => false
  | posInf, _ => true
  | negInf, _ => false

/-- Conversion of an array read to a number: `undefined` becomes NaN. -/
def ofRead : Option α → JSNum α
  | some x => fin x
  | none => nan

end JSNum

/-! ## `cosineSimilarity` -/

section Cosine

variable {α : Type} [LinearOrderedField α]

/-- The method `Array.prototype.reduce` with the index passed to the callback:
`xs.reduce((acc, x, idx) => f acc x idx, init)`, started at index `idx`. -/
def reduceIdx {β γ : Type} (f : β → γ → Nat → β) : List γ → Nat → β → β
  | [], _, acc => acc
  | x :: xs, idx, acc => reduceIdx f xs (idx + 1) (f acc x idx)

/-- Line 134: `vecA.reduce((sum, a, idx) => sum + a * vecB[idx], 0)`. -/
def dotProduct (vecA vecB : List α) : JSNum α :=
  reduceIdx (fun sum a idx => sum.add ((JSNum.fin a).mul (JSNum.ofRead (vecB.get? idx))))
    vecA 0 (JSNum.fin 0)

/-- Lines 135-136 without the root: `vec.reduce((sum, a) => sum + a * a, 0)`. -/
def sumSquares (vec : List α) : JSNum α :=
  vec.foldl (fun sum a => sum.add ((JSNum.fin a).mul (JSNum.fin a))) (JSNum.fin 0)

/-- Lines 133-138: `cosineSimilarity(vecA, vecB)`. -/
def cosineSimilarity (sqrt : α → α) (vecA vecB : List α) : JSNum α :=
  let dotProduct := dotProduct vecA vecB
  let normA := JSNum.sqrtJS sqrt (sumSquares vecA)
  let normB := JSNum.sqrtJS sqrt (sumSquares vecB)
  dotProduct.div (normA.mul normB)

/-! ## The scan of the `/answer` handler -/

/-- Lines 121-127: the body of the `for` loop, from index `i` on, over the
remaining rows of `answerEmbeddings`.  The state is the pair
`(maxSimilarity, bestAnswer)`; `answers[i]` past the end is `undefined`,
here `none`. -/
def scanFrom (sqrt : α → α) (answers : List String) (query : List α) :
    List (List α) → Nat → JSNum α × Option String → JSNum α × Option String
  | [], _, st => st
  | row :: rest, i, (maxSimilarity, bestAnswer) =>
      let similarity := cosineSimilarity sqrt query row
      if similarity.gt maxSimilarity then
        scanFrom sqrt answers query rest (i + 1) (similarity, answers.get? i)
      else
        scanFrom sqrt answers query rest (i + 1) (maxSimilarity, bestAnswer)

/-- Lines 117-127: `maxSimilarity = -Infinity`, `bestAnswer = ''`, then the
loop; the value of `bestAnswer` after the loop. -/
def bestMatch (sqrt : α → α) (answers : List String) (query : List α)
    (answerEmbeddings : List (List α)) : Option String :=
  (scanFrom sqrt answers query answerEmbeddings 0 (JSNum.negInf, some "")).2

end Cosine

/-! ## Process state and handlers -/

/-- Lines 23-28: the fixed answers. -/
def answers : List String :=
  [ "The capital of France is Paris.",
    "The tallest mountain in the world is Mount Everest.",
    "The square root of 64 is 8.",
    "Python is a popular programming language." ]

/-- The loaded model, an external collaborator: `model.embed(strings)`
followed by `arraySync()`, one row per input string by its contract. -/
structure Model (α : Type) where
  embed : List String → List (List α)

/-- Lines 21-22: the module-level variables `model` and `answerEmbeddings`. -/
structure ServerState (α : Type) where
  model : Option (Model α)
  answerEmbeddings : List (List α)

/-- What a handler does with a request. -/
inductive Response (β : Type) where
  /-- The call `res.status(400).send('Bad Request')`. -/
  | badRequest
  /-- The call `res.json(body)`, with the default status 200. -/
  | ok (body : β)
  /-- The handler threw before responding. -/
  | threw
  deriving DecidableEq, Repr

/-- The HTTP status of a response, when one is sent. -/
def Response.status {β : Type} : Response β → Option Nat
  | .badRequest => some 400
  | .ok _ => some 200
  | .threw => none

/-- JavaScript `!s` for a string-typed request field that may be absent:
true when the field is missing or is the empty string. -/
def falsy : Option String → Bool
  | none => true
  | some s => decide (s = "")

/-- Lines 21-22: the state when the module has been evaluated. -/
def initialState (α : Type) : ServerState α :=
  { model := none, answerEmbeddings := [] }

/-- Lines 67-78: `POST /embed`; the body of the 200 response is the value of
`embeddings`, `none` when `embeddingArray[0]` is `undefined`. -/
def embedHandler {α : Type} (st : ServerState α) (text : Option String) :
    Response (Option (List α)) :=
  match text, st.model with
  | some t, some m =>
      if falsy (some t) then Response.badRequest
      else
        let embeddingArray := m.embed [t]
        Response.ok embeddingArray.head?
  | _, _ => Response.badRequest

/-- Lines 106-130: `POST /answer`; the body of the 200 response is the value
of `answer`.  When the question has no embedding row, `cosineSimilarity` is
called on `undefined` and throws, provided the loop body runs at all. -/
def answerHandler {α : Type} [LinearOrderedField α] (sqrt : α → α)
    (st : ServerState α) (question : Option String) : Response (Option String) :=
  match question, st.model with
  | some q, some m =>
      if falsy (some q) then Response.badRequest
      else
        match (m.embed [q]).head? with
        | some questionEmbeddingArray =>
            Response.ok (bestMatch sqrt answers questionEmbeddingArray st.answerEmbeddings)
        | none =>
            if st.answerEmbeddings.isEmpty then Response.ok (some "") else Response.threw
  | _, _ => Response.badRequest

/-- Lines 31-37: the start-up sequence.  First `use.load()` resolves and
`model` is assigned, later `model.embed(answers)` resolves and
`answerEmbeddings` is assigned.  Each callback runs once: the first while
`model` is still unset, the second while the cache is still the initial `[]`. -/
inductive Step {α : Type} : ServerState α → ServerState α → Prop where
  | modelLoaded (st : ServerState α) (m : Model α) :
      st.model = none →
      Step st { st with model := some m }
  | embeddingsStored (st : ServerState α) (m : Model α) :
      st.model = some m → st.answerEmbeddings = [] →
      Step st { st with answerEmbeddings := m.embed answers }

/-- The states the process can be in. -/
inductive Reachable {α : Type} : ServerState α → Prop where
  | init : Reachable (initialState α)
  | step {s t : ServerState α} : Reachable s → Step s t → Reachable t

/-- The Ready state of the spec: the model is loaded and the answer
embeddings are cached, one row per answer. -/
def Ready {α : Type} (st : ServerState α) : Prop :=
  ∃ m, st.model = some m ∧ st.answerEmbeddings = m.embed answers ∧
    st.answerEmbeddings.length = answers.length

/-- Componentwise multiple `c * v` of a vector. -/
def scaleVec {α : Type} [Mul α] (c : α) (v : List α) : List α :=
  v.map (fun x => c * x)

/-- Componentwise negation `-v` of a vector. -/
def negVec {α : Type} [Neg α] (v : List α) : List α :=
  v.map (fun x => -x)

/-- The list `candidates` with row `k` replaced by `c * candidates[k]`;
unchanged when `k` is past the end. -/
def scaleRow {α : Type} [Mul α] (c : α) : Nat → List (List α) → List (List α)
  | _, [] => []
  | 0, row :: rest => scaleVec c row :: rest
  | k + 1, row :: rest => row :: scaleRow c k rest

/-! ## IEEE 754 binary64 arithmetic

The numbers of `server.js` are binary64 values.  Here a finite binary64 value
is the rational it denotes, and every arithmetic result is rounded to the
nearest binary64 value, ties to even, with overflow to infinity and underflow
through the subnormal range to zero.  The sign of zero is not tracked. -/

section Binary64

/-- The number of binary digits of `n`, found in at most `fuel` halvings. -/
def bitLength : Nat → Nat → Nat
  | 0, _ => 0
  | fuel + 1, n => if n = 0 then 0 else bitLength fuel (n / 2) + 1

/-- The fraction `(p / d) / 2 ^ q` as a pair of numerator and denominator. -/
def scaled (p d : Nat) (q : Int) : Nat × Nat :=
  if 0 ≤ q then (p, d * 2 ^ q.toNat) else (p * 2 ^ (-q).toNat, d)

/-- The exponent `e` with `2 ^ e ≤ p / d < 2 ^ (e + 1)`, for positive `p`
and `d`. -/
def floorLog2 (p d : Nat) : Int :=
  let e0 : Int := (bitLength p p : Int) - (bitLength d d : Int)
  if (scaled p d e0).2 ≤ (scaled p d e0).1 then e0 else e0 - 1

/-- The rational `2 ^ q`. -/
def pow2 (q : Int) : ℚ :=
  if 0 ≤ q then ((2 ^ q.toNat : Nat) : ℚ) else 1 / ((2 ^ (-q).toNat : Nat) : ℚ)

/-- Rounding of `n + r / Q` to an integer, half to even, where `r < Q`. -/
def roundHalfEven (n r Q : Nat) : Nat :=
  if 2 * r < Q then n
  else if Q < 2 * r then n + 1
  else if n % 2 = 0 then n else n + 1

/-- The binary64 magnitude nearest to `p / d`, ties to even, before the
overflow test: 53 significant bits, and a unit in the last place of at least
`2 ^ (-1074)`. -/
def roundMag (p d : Nat) : ℚ :=
  let e := floorLog2 p d
  let q := max (e - 52) (-1074)
  let P := (scaled p d q).1
  let Q := (scaled p d q).2
  (roundHalfEven (P / Q) (P % Q) Q : ℚ) * pow2 q

/-- Rounding of an exact result to binary64: to nearest, ties to even, at
least `2 ^ 1024` in magnitude becomes an infinity. -/
def roundDouble (x : ℚ) : JSNum ℚ :=
  if x = 0 then JSNum.fin 0
  else
    let y := roundMag x.num.natAbs x.den
    if pow2 1024 ≤ y then (if 0 < x then JSNum.posInf else JSNum.negInf)
    else JSNum.fin (if 0 < x then y else -y)

/-- Newton iteration for the integer square root of `n`, from a guess that
is at least the root, in at most `fuel` steps. -/
def sqrtIter (n : Nat) : Nat → Nat → Nat
  | 0, guess => guess
  | fuel + 1, guess =>
      let next := (guess + n / guess) / 2
      if next < guess then sqrtIter n fuel next else guess

/-- The integer square root of `n`. -/
def natSqrt (n : Nat) : Nat :=
  if n ≤ 1 then n else sqrtIter n (n / 2) (n / 2)

/-- The binary64 value nearest to the square root of the finite binary64
value `x`: what `Math.sqrt` returns on a non-negative finite number. -/
def sqrtDouble (x : ℚ) : ℚ :=
  if x ≤ 0 then 0
  else
    let e := floorLog2 x.num.natAbs x.den
    let q := e / 2 - 52
    let P := (scaled x.num.natAbs x.den (2 * q)).1
    let Q := (scaled x.num.natAbs x.den (2 * q)).2
    let n := natSqrt (P / Q)
    let up :=
      if (2 * n + 1) ^ 2 * Q < 4 * P then n + 1
      else if (2 * n + 1) ^ 2 * Q = 4 * P then (if n % 2 = 0 then n else n + 1)
      else n
    (up : ℚ) * pow2 q

/-- The exact result of one arithmetic operation stored as a binary64 value. -/
def JSNum.toDouble : JSNum ℚ → JSNum ℚ
  | JSNum.fin x => roundDouble x
  | JSNum.posInf => JSNum.posInf
  | JSNum.negInf => JSNum.negInf
  | JSNum.nan => JSNum.nan

/-- Line 134 on binary64: `vecA.reduce((sum, a, idx) => sum + a * vecB[idx], 0)`,
the product and the sum each rounded. -/
def dotProductF64 (vecA vecB : List ℚ) : JSNum ℚ :=
  reduceIdx (fun sum a idx =>
      (sum.add ((JSNum.fin a).mul (JSNum.ofRead (vecB.get? idx))).toDouble).toDouble)
    vecA 0 (JSNum.fin 0)

/-- Lines 135-136 on binary64, without the root:
`vec.reduce((sum, a) => sum + a * a, 0)`. -/
def sumSquaresF64 (vec : List ℚ) : JSNum ℚ :=
  vec.foldl (fun sum a => (sum.add ((JSNum.fin a).mul (JSNum.fin a)).toDouble).toDouble)
    (JSNum.fin 0)

/-- Lines 133-138 on binary64: `cosineSimilarity(vecA, vecB)`. -/
def cosineSimilarityF64 (vecA vecB : List ℚ) : JSNum ℚ :=
  let dotProduct := dotProductF64 vecA vecB
  let normA := JSNum.sqrtJS sqrtDouble (sumSquaresF64 vecA)
  let normB := JSNum.sqrtJS sqrtDouble (sumSquaresF64 vecB)
  (dotProduct.div (normA.mul normB).toDouble).toDouble

/-- Lines 121-127 on binary64: the body of the `for` loop, from index `i` on. -/
def scanFromF64 (answers : List String) (query : List ℚ) :
    List (List ℚ) → Nat → JSNum ℚ × Option String → JSNum ℚ × Option String
  | [], _, st => st
  | row :: rest, i, (maxSimilarity, bestAnswer) =>
      let similarity := cosineSimilarityF64 query row
      if similarity.gt maxSimilarity then
        scanFromF64 answers query rest (i + 1) (similarity, answers.get? i)
      else
        scanFromF64 answers query rest (i + 1) (maxSimilarity, bestAnswer)

/-- Lines 117-127 on binary64: the value of `bestAnswer` after the loop. -/
def bestMatchF64 (answers : List String) (query : List ℚ)
    (answerEmbeddings : List (List ℚ)) : Option String :=
  (scanFromF64 answers query answerEmbeddings 0 (JSNum.negInf, some "")).2

end Binary64

/-! ## States and a model used in the examples -/

/-- A model that returns the row `[1, 0]` for every input string. -/
def constModel : Model ℝ :=
  { embed := fun strings => strings.map (fun _ => [1, 0]) }

/-- The state between the two start-up callbacks: `model` is assigned, the
cache is still the initial `[]`. -/
def modelOnlyState {α : Type} (m : Model α) : ServerState α :=
  { model := some m, answerEmbeddings := [] }

/-- The state after both start-up callbacks. -/
def readyState {α : Type} (m : Model α) : ServerState α :=
  { model := some m, answerEmbeddings := m.embed answers }

/-! ## Exact sums behind the two reductions -/

section Sums

variable {α : Type} [LinearOrderedField α]

/-- The sum of `a_k * b_k` over the common indices of two lists. -/
def dotSum : List α → List α → α
  | a :: as, b :: bs => a * b + dotSum as bs
  | _, _ => 0

/-- The sum of the squares of the entries of a list. -/
def sqSum : List α → α
  | [] => 0
  | a :: as => a * a + sqSum as

theorem sqSum_nonneg (v : List α) : 0 ≤ sqSum v := by
  induction v with
  | nil => simp [sqSum]
  | cons a as ih => simp only [sqSum]; nlinarith [mul_self_nonneg a]

theorem sqSum_pos_of_exists (v : List α) (h : ∃ x ∈ v, x ≠ 0) : 0 < sqSum v := by
  induction v with
  | nil => simp at h
  | cons a as ih =>
    simp only [sqSum]
    rcases h with ⟨x, hx, hx0⟩
    rcases List.mem_cons.mp hx with rfl | hmem
    · have h1 : 0 < x * x := mul_self_pos.mpr hx0
      have h2 := sqSum_nonneg as
      linarith
    · have h1 := ih ⟨x, hmem, hx0⟩
      nlinarith [mul_self_nonneg a]

theorem sumSquares_foldl (v : List α) (s : α) :
    v.foldl (fun sum a => sum.add ((JSNum.fin a).mul (JSNum.fin a))) (JSNum.fin s)
      = JSNum.fin (s + sqSum v) := by
  induction v generalizing s with
  | nil => simp [sqSum]
  | cons a as ih =>
    show List.foldl _ (JSNum.fin (s + a * a)) as = _
    rw [ih, sqSum, add_assoc]

theorem sumSquares_eq (v : List α) : sumSquares v = JSNum.fin (sqSum v) := by
  unfold sumSquares
  rw [sumSquares_foldl]
  simp

theorem JSNum.nan_add (x : JSNum α) : JSNum.nan.add x = JSNum.nan := by
  cases x <;> rfl

theorem JSNum.nan_div (x : JSNum α) : JSNum.nan.div x = JSNum.nan := by
  cases x <;> rfl

theorem reduceIdx_nan (vecB : List α) (vecA : List α) (idx : Nat) :
    reduceIdx (fun sum a idx => sum.add ((JSNum.fin a).mul (JSNum.ofRead (vecB.get? idx))))
      vecA idx JSNum.nan = JSNum.nan := by
  induction vecA generalizing idx with
  | nil => rfl
  | cons a as ih =>
    rw [reduceIdx, JSNum.nan_add]
    exact ih (idx + 1)

theorem reduceIdx_dot (vecB : List α) (vecA tail : List α) (idx : Nat) (s : α)
    (htail : ∀ k, vecB.get? (idx + k) = tail.get? k) :
    reduceIdx (fun sum a idx => sum.add ((JSNum.fin a).mul (JSNum.ofRead (vecB.get? idx))))
      vecA idx (JSNum.fin s)
      = if vecA.length ≤ tail.length then JSNum.fin (s + dotSum vecA tail) else JSNum.nan := by
  induction vecA generalizing tail idx s with
  | nil => simp [reduceIdx, dotSum]
  | cons a as ih =>
    cases tail with
    | nil =>
      have h0 : vecB.get? idx = none := by simpa using htail 0
      have h1 : reduceIdx (fun sum a idx => sum.add ((JSNum.fin a).mul
          (JSNum.ofRead (vecB.get? idx)))) (a :: as) idx (JSNum.fin s)
          = reduceIdx (fun sum a idx => sum.add ((JSNum.fin a).mul
          (JSNum.ofRead (vecB.get? idx)))) as (idx + 1) JSNum.nan := by
        rw [reduceIdx]
        simp only [h0]
        rfl
      rw [h1, reduceIdx_nan]
      simp
    | cons b bs =>
      have h0 : vecB.get? idx = some b := by simpa using htail 0
      have h1 : reduceIdx (fun sum a idx => sum.add ((JSNum.fin a).mul
          (JSNum.ofRead (vecB.get? idx)))) (a :: as) idx (JSNum.fin s)
          = reduceIdx (fun sum a idx => sum.add ((JSNum.fin a).mul
          (JSNum.ofRead (vecB.get? idx)))) as (idx + 1) (JSNum.fin (s + a * b)) := by
        rw [reduceIdx]
        simp only [h0]
        rfl
      rw [h1, ih bs (idx + 1) (s + a * b)]
      · simp only [List.length_cons, Nat.add_le_add_iff_right, dotSum]
        split
        · congr 1; ring
        · rfl
      · intro k
        have := htail (k + 1)
        simpa [Nat.add_assoc, Nat.add_comm 1 k] using this

theorem dotProduct_eq (vecA vecB : List α) :
    dotProduct vecA vecB
      = if vecA.length ≤ vecB.length then JSNum.fin (dotSum vecA vecB) else JSNum.nan := by
  unfold dotProduct
  rw [reduceIdx_dot vecB vecA vecB 0 0 (by simp)]
  simp

/-- Cauchy-Schwarz for the sums over the common indices. -/
theorem dotSum_sq_le (a b : List α) : dotSum a b ^ 2 ≤ sqSum a * sqSum b := by
  induction a generalizing b with
  | nil =>
    simp [dotSum, sqSum]
  | cons x xs ih =>
    cases b with
    | nil => simp [dotSum, sqSum]
    | cons y ys =>
      simp only [dotSum, sqSum]
      have hA := sqSum_nonneg xs
      have hB := sqSum_nonneg ys
      have hd := ih ys
      have hcross : 2 * (x * y) * dotSum xs ys ≤ x * x * sqSum ys + y * y * sqSum xs := by
        have hxx := mul_self_nonneg x
        have hyy := mul_self_nonneg y
        have hnn : 0 ≤ x * x * sqSum ys + y * y * sqSum xs :=
          add_nonneg (mul_nonneg hxx hB) (mul_nonneg hyy hA)
        have hsq : (2 * (x * y) * dotSum xs ys) ^ 2
            ≤ (x * x * sqSum ys + y * y * sqSum xs) ^ 2 := by
          have h1 : (2 * (x * y) * dotSum xs ys) ^ 2
              = 4 * (x * x) * (y * y) * dotSum xs ys ^ 2 := by ring
          have h2 : 4 * (x * x) * (y * y) * dotSum xs ys ^ 2
              ≤ 4 * (x * x) * (y * y) * (sqSum xs * sqSum ys) := by
            apply mul_le_mul_of_nonneg_left hd
            exact mul_nonneg (mul_nonneg (by norm_num) hxx) hyy
          have h3 : 4 * (x * x) * (y * y) * (sqSum xs * sqSum ys)
              ≤ (x * x * sqSum ys + y * y * sqSum xs) ^ 2 := by
            nlinarith [sq_nonneg (x * x * sqSum ys - y * y * sqSum xs)]
          linarith
        exact le_trans (le_abs_self _) (abs_le_of_sq_le_sq hsq hnn)
      nlinarith [hcross, hd]

theorem dotSum_self (v : List α) : dotSum v v = sqSum v := by
  induction v with
  | nil => rfl
  | cons a as ih => simp [dotSum, sqSum, ih]

end Sums

/-! ## The binary64 helpers agree with the library functions -/

section Binary64Facts

theorem sqrtIter_eq (n fuel guess : Nat) (h : guess ≤ fuel) :
    sqrtIter n fuel guess = Nat.sqrt.iter n guess := by
  induction fuel generalizing guess with
  | zero =>
    have hg : guess = 0 := Nat.le_zero.mp h
    subst hg
    rw [Nat.sqrt.iter]
    simp [sqrtIter]
  | succ fuel ih =>
    rw [Nat.sqrt.iter, sqrtIter]
    by_cases hlt : (guess + n / guess) / 2 < guess
    · simp only [hlt, if_true, dif_pos]
      exact ih _ (by omega)
    · simp only [hlt, if_false, dif_neg, not_false_eq_true]

/-- The fuelled Newton iteration is the library integer square root. -/
theorem natSqrt_eq_sqrt (n : Nat) : natSqrt n = Nat.sqrt n := by
  unfold natSqrt Nat.sqrt
  split
  · rfl
  · exact sqrtIter_eq n _ _ (le_refl _)

theorem bitLength_zero (fuel : Nat) : bitLength fuel 0 = 0 := by
  cases fuel <;> simp [bitLength]

/-- With enough fuel the digit count of a positive number is its binary
logarithm plus one. -/
theorem bitLength_eq (fuel n : Nat) (h : n ≤ fuel) (hn : n ≠ 0) :
    bitLength fuel n = Nat.log2 n + 1 := by
  induction fuel generalizing n with
  | zero => omega
  | succ fuel ih =>
    rw [bitLength, if_neg hn, Nat.log2]
    by_cases h2 : 2 ≤ n
    · rw [if_pos h2, ih (n / 2) (by omega) (by omega)]
    · have h1 : n = 1 := by omega
      subst h1
      simp [bitLength_zero]

/-- Known binary64 roundings: the nearest values to `1/10` and `3/5`, ties to
even at `2 ^ 53 + 1` and `2 ^ 53 + 3`, the overflow threshold, the underflow
threshold, and the nearest value to the square root of `2`. -/
theorem roundDouble_known_values :
    roundDouble (1 / 10) = JSNum.fin (3602879701896397 / 36028797018963968) ∧
      roundDouble (3 / 5) = JSNum.fin (5404319552844595 / 9007199254740992) ∧
      roundDouble (2 ^ 53 + 1) = JSNum.fin (2 ^ 53) ∧
      roundDouble (2 ^ 53 + 3) = JSNum.fin (2 ^ 53 + 4) ∧
      roundDouble (2 ^ 1024 - 2 ^ 971) = JSNum.fin (2 ^ 1024 - 2 ^ 971) ∧
      roundDouble (2 ^ 1024 - 2 ^ 970) = JSNum.posInf ∧
      roundDouble (-(2 ^ 1024)) = JSNum.negInf ∧
      roundDouble (1 / 2 ^ 1074) = JSNum.fin (1 / 2 ^ 1074) ∧
      roundDouble (1 / 2 ^ 1075) = JSNum.fin 0 ∧
      roundDouble (3 / 2 ^ 1075) = JSNum.fin (2 / 2 ^ 1074) ∧
      sqrtDouble 2 = 6369051672525773 / 4503599627370496 ∧
      sqrtDouble 25 = 5 := by
  decide!

/-- The values of `cosineSimilarity` on binary64 used in the counterexamples:
`[1, 1]` with itself gives `1 - 2 ^ (-52)`, printed `0.9999999999999998`;
`[1, 1]` with `[3, 3]` gives `1`; `[2 ^ 600]` with itself overflows to NaN. -/
theorem cosineSimilarityF64_values :
    cosineSimilarityF64 [1, 1] [1, 1] = JSNum.fin (4503599627370495 / 4503599627370496) ∧
      cosineSimilarityF64 [1, 1] [3, 3] = JSNum.fin 1 ∧
      cosineSimilarityF64 [1, 0] [3, 4] = JSNum.fin (5404319552844595 / 9007199254740992) ∧
      cosineSimilarityF64 [1, 0] [2 ^ 600, 0] = JSNum.fin 0 ∧
      cosineSimilarityF64 [2 ^ 600] [2 ^ 600] = JSNum.nan ∧
      cosineSimilarityF64 [0, 0] [1, 0] = JSNum.nan := by
  decide!

end Binary64Facts

/-! ## The scan keeps the first greatest similarity -/

section Scan

variable {α : Type} [LinearOrderedField α]

theorem JSNum.gt_of_lt_of_gt (x y : α) (m : JSNum α) (hxy : x < y)
    (h : (JSNum.fin x).gt m = true) : (JSNum.fin y).gt m = true := by
  cases m with
  | fin z =>
    simp only [JSNum.gt, decide_eq_true_eq] at h ⊢
    exact lt_trans h hxy
  | posInf => simp [JSNum.gt] at h
  | negInf => rfl
  | nan => simp [JSNum.gt] at h

theorem JSNum.lt_of_not_gt_of_gt (x y : α) (m : JSNum α)
    (hx : (JSNum.fin x).gt m = false) (hy : (JSNum.fin y).gt m = true) : x < y := by
  cases m with
  | fin z =>
    simp only [JSNum.gt, decide_eq_true_eq, decide_eq_false_iff_not, not_lt] at hx hy
    exact lt_of_le_of_lt hx hy
  | posInf => simp [JSNum.gt] at hy
  | negInf => simp [JSNum.gt] at hx
  | nan => simp [JSNum.gt] at hy

theorem scanFrom_cons (sqrt : α → α) (answers : List String) (q row : List α)
    (rest : List (List α)) (i : Nat) (m : JSNum α) (b : Option String) :
    scanFrom sqrt answers q (row :: rest) i (m, b)
      = if (cosineSimilarity sqrt q row).gt m then
          scanFrom sqrt answers q rest (i + 1) (cosineSimilarity sqrt q row, answers.get? i)
        else scanFrom sqrt answers q rest (i + 1) (m, b) := rfl

/-- When every similarity of the remaining rows is a finite number, the scan
either keeps its state, no row being greater than the current maximum, or it
stops on the first row of greatest similarity. -/
theorem scanFrom_spec (sqrt : α → α) (answers : List String) (q : List α) (sim : Nat → α)
    (rest : List (List α)) (i : Nat) (m : JSNum α) (b : Option String)
    (hsim : ∀ k (hk : k < rest.length),
      cosineSimilarity sqrt q (rest.get ⟨k, hk⟩) = JSNum.fin (sim (i + k))) :
    (scanFrom sqrt answers q rest i (m, b) = (m, b) ∧
        ∀ k, k < rest.length → (JSNum.fin (sim (i + k))).gt m = false) ∨
      ∃ k, k < rest.length ∧
        scanFrom sqrt answers q rest i (m, b)
          = (JSNum.fin (sim (i + k)), answers.get? (i + k)) ∧
        (JSNum.fin (sim (i + k))).gt m = true ∧
        (∀ j, j < rest.length → sim (i + j) ≤ sim (i + k)) ∧
        (∀ j, j < k → sim (i + j) < sim (i + k)) := by
  induction rest generalizing i m b with
  | nil => exact Or.inl ⟨rfl, fun k hk => absurd hk (Nat.not_lt_zero k)⟩
  | cons row rest ih =>
    have h0 : cosineSimilarity sqrt q row = JSNum.fin (sim i) := by
      simpa using hsim 0 (Nat.succ_pos _)
    have hrest : ∀ k (hk : k < rest.length),
        cosineSimilarity sqrt q (rest.get ⟨k, hk⟩) = JSNum.fin (sim (i + 1 + k)) := by
      intro k hk
      have := hsim (k + 1) (Nat.succ_lt_succ hk)
      simpa [Nat.add_assoc, Nat.add_comm 1 k] using this
    have hidx : ∀ k, i + 1 + k = i + (k + 1) := fun k => by omega
    rw [scanFrom_cons, h0]
    by_cases hgt : (JSNum.fin (sim i)).gt m = true
    · rw [if_pos hgt]
      rcases ih (i + 1) (JSNum.fin (sim i)) (answers.get? i) hrest with ⟨heq, hall⟩ | hex
      · refine Or.inr ⟨0, Nat.succ_pos _, by simpa using heq, by simpa using hgt, ?_, ?_⟩
        · intro j hj
          cases j with
          | zero => exact le_refl _
          | succ j =>
            have := hall j (Nat.lt_of_succ_lt_succ hj)
            rw [hidx j] at this
            simpa [JSNum.gt] using this
        · intro j hj
          exact absurd hj (Nat.not_lt_zero j)
      · obtain ⟨k, hk, heq, hkgt, hmax, hfirst⟩ := hex
        have hlt : sim i < sim (i + 1 + k) := by
          simpa [JSNum.gt] using hkgt
        refine Or.inr ⟨k + 1, Nat.succ_lt_succ hk, ?_, ?_, ?_, ?_⟩
        · rw [← hidx k]; exact heq
        · rw [← hidx k]; exact JSNum.gt_of_lt_of_gt _ _ m hlt hgt
        · intro j hj
          rw [← hidx k]
          cases j with
          | zero => exact hlt.le
          | succ j =>
            rw [← hidx j]
            exact hmax j (Nat.lt_of_succ_lt_succ hj)
        · intro j hj
          rw [← hidx k]
          cases j with
          | zero => exact hlt
          | succ j =>
            rw [← hidx j]
            exact hfirst j (Nat.lt_of_succ_lt_succ hj)
    · have hngt : (JSNum.fin (sim i)).gt m = false := by
        simpa using hgt
      rw [if_neg hgt]
      rcases ih (i + 1) m b hrest with ⟨heq, hall⟩ | hex
      · refine Or.inl ⟨heq, ?_⟩
        intro j hj
        cases j with
        | zero => exact hngt
        | succ j =>
          rw [← hidx j]
          exact hall j (Nat.lt_of_succ_lt_succ hj)
      · obtain ⟨k, hk, heq, hkgt, hmax, hfirst⟩ := hex
        have hlt : sim i < sim (i + 1 + k) := JSNum.lt_of_not_gt_of_gt _ _ m hngt hkgt
        refine Or.inr ⟨k + 1, Nat.succ_lt_succ hk, ?_, ?_, ?_, ?_⟩
        · rw [← hidx k]; exact heq
        · rw [← hidx k]; exact hkgt
        · intro j hj
          rw [← hidx k]
          cases j with
          | zero => exact hlt.le
          | succ j =>
            rw [← hidx j]
            exact hmax j (Nat.lt_of_succ_lt_succ hj)
        · intro j hj
          rw [← hidx k]
          cases j with
          | zero => exact hlt
          | succ j =>
            rw [← hidx j]
            exact hfirst j (Nat.lt_of_succ_lt_succ hj)

theorem scanFrom_append (sqrt : α → α) (answers : List String) (q : List α)
    (pre post : List (List α)) (i : Nat) (st : JSNum α × Option String) :
    scanFrom sqrt answers q (pre ++ post) i st
      = scanFrom sqrt answers q post (i + pre.length) (scanFrom sqrt answers q pre i st) := by
  induction pre generalizing i st with
  | nil => rfl
  | cons row rest ih =>
    obtain ⟨m, b⟩ := st
    have hidx : i + (row :: rest).length = i + 1 + rest.length := by
      simp only [List.length_cons]; omega
    rw [List.cons_append, scanFrom_cons, scanFrom_cons, hidx]
    split
    · exact ih _ _
    · exact ih _ _

theorem scanFrom_no_gt (sqrt : α → α) (answers : List String) (q : List α)
    (rest : List (List α)) (i : Nat) (m : JSNum α) (b : Option String)
    (h : ∀ row ∈ rest, (cosineSimilarity sqrt q row).gt m = false) :
    scanFrom sqrt answers q rest i (m, b) = (m, b) := by
  induction rest generalizing i with
  | nil => rfl
  | cons row rest ih =>
    rw [scanFrom_cons, h row (List.mem_cons_self _ _)]
    simpa using ih (i + 1) (fun r hr => h r (List.mem_cons_of_mem _ hr))

/-- A property of the running maximum that every new maximum has is kept by
the scan. -/
theorem scanFrom_max_invariant (sqrt : α → α) (answers : List String) (q : List α)
    (P : JSNum α → Prop) (rest : List (List α)) (i : Nat) (m : JSNum α) (b : Option String)
    (hm : P m)
    (h : ∀ row ∈ rest, ∀ m0, (cosineSimilarity sqrt q row).gt m0 = true →
      P (cosineSimilarity sqrt q row)) :
    P (scanFrom sqrt answers q rest i (m, b)).1 := by
  induction rest generalizing i m b with
  | nil => exact hm
  | cons row rest ih =>
    rw [scanFrom_cons]
    have hrest : ∀ r ∈ rest, ∀ m0, (cosineSimilarity sqrt q r).gt m0 = true →
        P (cosineSimilarity sqrt q r) := fun r hr => h r (List.mem_cons_of_mem _ hr)
    split
    · rename_i hgt
      exact ih (i + 1) _ _ (h row (List.mem_cons_self _ _) m hgt) hrest
    · exact ih (i + 1) _ _ hm hrest

end Scan

/-! ## `cosineSimilarity` over the reals -/

section RealCosine

theorem cosineSimilarity_eq_div (a b : List ℝ) :
    cosineSimilarity Real.sqrt a b =
      (if a.length ≤ b.length then JSNum.fin (dotSum a b) else JSNum.nan).div
        (JSNum.fin (Real.sqrt (sqSum a) * Real.sqrt (sqSum b))) := by
  unfold cosineSimilarity
  have ha : ¬ sqSum a < 0 := not_lt.mpr (sqSum_nonneg a)
  have hb : ¬ sqSum b < 0 := not_lt.mpr (sqSum_nonneg b)
  simp only [dotProduct_eq, sumSquares_eq, JSNum.sqrtJS, if_neg ha, if_neg hb]
  rfl

theorem cosineSimilarity_short (a b : List ℝ) (h : b.length < a.length) :
    cosineSimilarity Real.sqrt a b = JSNum.nan := by
  rw [cosineSimilarity_eq_div, if_neg (by omega), JSNum.nan_div]

theorem cosineSimilarity_fin (a b : List ℝ) (h : a.length ≤ b.length)
    (ha : 0 < sqSum a) (hb : 0 < sqSum b) :
    cosineSimilarity Real.sqrt a b
      = JSNum.fin (dotSum a b / (Real.sqrt (sqSum a) * Real.sqrt (sqSum b))) := by
  rw [cosineSimilarity_eq_div, if_pos h]
  have hne : Real.sqrt (sqSum a) * Real.sqrt (sqSum b) ≠ 0 :=
    mul_ne_zero (Real.sqrt_ne_zero'.mpr ha) (Real.sqrt_ne_zero'.mpr hb)
  simp [JSNum.div, hne]

theorem dotSum_eq_zero_of_sqSum (a b : List ℝ) (h : sqSum a = 0 ∨ sqSum b = 0) :
    dotSum a b = 0 := by
  have hcs := dotSum_sq_le a b
  have hz : sqSum a * sqSum b = 0 := by
    rcases h with h | h <;> simp [h]
  rw [hz] at hcs
  exact pow_eq_zero_iff (two_ne_zero) |>.mp (le_antisymm hcs (sq_nonneg _))

theorem cosineSimilarity_zero (a b : List ℝ) (h : sqSum a = 0 ∨ sqSum b = 0) :
    cosineSimilarity Real.sqrt a b = JSNum.nan := by
  rw [cosineSimilarity_eq_div]
  split
  · have hd := dotSum_eq_zero_of_sqSum a b h
    have hz : Real.sqrt (sqSum a) * Real.sqrt (sqSum b) = 0 := by
      rcases h with h | h <;> simp [h]
    simp [JSNum.div, hd, hz]
  · exact JSNum.nan_div _

theorem abs_dotSum_le (a b : List ℝ) :
    |dotSum a b| ≤ Real.sqrt (sqSum a) * Real.sqrt (sqSum b) := by
  rw [← Real.sqrt_mul (sqSum_nonneg a)]
  apply Real.abs_le_sqrt
  exact dotSum_sq_le a b

/-- Every value of `cosineSimilarity` is NaN or a number of `[-1, 1]`. -/
theorem cosineSimilarity_cases (a b : List ℝ) :
    cosineSimilarity Real.sqrt a b = JSNum.nan ∨
      ∃ x : ℝ, cosineSimilarity Real.sqrt a b = JSNum.fin x ∧ -1 ≤ x ∧ x ≤ 1 := by
  by_cases hlen : a.length ≤ b.length
  · rcases (sqSum_nonneg a).eq_or_lt with ha | ha
    · exact Or.inl (cosineSimilarity_zero a b (Or.inl ha.symm))
    rcases (sqSum_nonneg b).eq_or_lt with hb | hb
    · exact Or.inl (cosineSimilarity_zero a b (Or.inr hb.symm))
    refine Or.inr ⟨_, cosineSimilarity_fin a b hlen ha hb, ?_⟩
    have hpos : 0 < Real.sqrt (sqSum a) * Real.sqrt (sqSum b) :=
      mul_pos (Real.sqrt_pos.mpr ha) (Real.sqrt_pos.mpr hb)
    have habs := abs_le.mp (abs_dotSum_le a b)
    constructor
    · rw [le_div_iff₀ hpos]; linarith [habs.1]
    · rw [div_le_iff₀ hpos]; linarith [habs.2]
  · exact Or.inl (cosineSimilarity_short a b (by omega))

theorem sqSum_negVec (v : List ℝ) : sqSum (negVec v) = sqSum v := by
  induction v with
  | nil => rfl
  | cons a as ih =>
    have : sqSum (negVec (a :: as)) = -a * -a + sqSum (negVec as) := rfl
    rw [this, ih, sqSum]
    ring

theorem dotSum_negVec (v : List ℝ) : dotSum v (negVec v) = -sqSum v := by
  induction v with
  | nil => simp [negVec, dotSum, sqSum]
  | cons a as ih =>
    have : dotSum (a :: as) (negVec (a :: as)) = a * -a + dotSum as (negVec as) := rfl
    rw [this, ih, sqSum]
    ring

theorem cosineSimilarity_same (v : List ℝ) (hpos : 0 < sqSum v) :
    cosineSimilarity Real.sqrt v v = JSNum.fin 1 := by
  rw [cosineSimilarity_fin v v (le_refl _) hpos hpos, dotSum_self,
    Real.mul_self_sqrt hpos.le, div_self hpos.ne.symm]

theorem sqSum_scaleVec (c : ℝ) (v : List ℝ) : sqSum (scaleVec c v) = c * c * sqSum v := by
  induction v with
  | nil => simp [scaleVec, sqSum]
  | cons a as ih =>
    have : sqSum (scaleVec c (a :: as)) = c * a * (c * a) + sqSum (scaleVec c as) := rfl
    rw [this, ih, sqSum]
    ring

theorem dotSum_scaleVec (c : ℝ) (q v : List ℝ) :
    dotSum q (scaleVec c v) = c * dotSum q v := by
  induction q generalizing v with
  | nil => simp [dotSum]
  | cons a as ih =>
    cases v with
    | nil => simp [scaleVec, dotSum]
    | cons b bs =>
      have : dotSum (a :: as) (scaleVec c (b :: bs))
          = a * (c * b) + dotSum as (scaleVec c bs) := rfl
      rw [this, ih, dotSum]
      ring

theorem JSNum.div_scale (c d n : ℝ) (hc : 0 < c) :
    (JSNum.fin (c * d)).div (JSNum.fin (c * n)) = (JSNum.fin d).div (JSNum.fin n) := by
  unfold JSNum.div
  by_cases hn : n = 0
  · subst hn
    by_cases hd : d = 0
    · simp [hd]
    · have h1 : c * d ≠ 0 := mul_ne_zero hc.ne.symm hd
      have h2 : (0 < c * d) ↔ (0 < d) := mul_pos_iff_of_pos_left hc
      simp [h1, hd, h2]
  · have h1 : c * n ≠ 0 := mul_ne_zero hc.ne.symm hn
    simp only [h1, hn, if_false]
    congr 1
    field_simp
    ring

/-- Scaling the candidate by a positive constant does not change the value
of `cosineSimilarity`, NaN included. -/
theorem cosineSimilarity_scaleVec (c : ℝ) (hc : 0 < c) (q e : List ℝ) :
    cosineSimilarity Real.sqrt q (scaleVec c e) = cosineSimilarity Real.sqrt q e := by
  rw [cosineSimilarity_eq_div, cosineSimilarity_eq_div]
  have hlen : (scaleVec c e).length = e.length := by simp [scaleVec]
  rw [hlen]
  split
  · rw [dotSum_scaleVec, sqSum_scaleVec, Real.sqrt_mul (mul_self_nonneg c),
      Real.sqrt_mul_self hc.le]
    have : Real.sqrt (sqSum q) * (c * Real.sqrt (sqSum e))
        = c * (Real.sqrt (sqSum q) * Real.sqrt (sqSum e)) := by ring
    rw [this, JSNum.div_scale _ _ _ hc]
  · rw [JSNum.nan_div, JSNum.nan_div]

theorem scanFrom_scaleRow (c : ℝ) (hc : 0 < c) (answers : List String) (q : List ℝ)
    (cands : List (List ℝ)) (k i : Nat) (st : JSNum ℝ × Option String) :
    scanFrom Real.sqrt answers q (scaleRow c k cands) i st
      = scanFrom Real.sqrt answers q cands i st := by
  induction cands generalizing k i st with
  | nil => cases k <;> rfl
  | cons row rest ih =>
    obtain ⟨m, b⟩ := st
    cases k with
    | zero =>
      simp only [scaleRow, scanFrom, cosineSimilarity_scaleVec c hc]
    | succ k =>
      simp only [scaleRow, scanFrom, ih]

end RealCosine

/-! ## Claims about `cosineSimilarity` -/

section CosineClaims

/-- C7, counterexample: on the zero vector `[0]` the code divides `0` by `0`,
so `cosineSimilarity([0], [0])` is NaN and not `1`. -/
theorem cosineSimilarity_self_zero_vector :
    cosineSimilarity Real.sqrt ([0] : List ℝ) [0] = JSNum.nan ∧
      cosineSimilarity Real.sqrt ([0] : List ℝ) [0] ≠ JSNum.fin 1 := by
  have h : cosineSimilarity Real.sqrt ([0] : List ℝ) [0] = JSNum.nan :=
    cosineSimilarity_zero _ _ (Or.inl (by simp [sqSum]))
  exact ⟨h, by rw [h]; exact fun hc => JSNum.noConfusion hc⟩

/-- C7, amended: for every vector `v` with at least one non-zero entry,
`cosineSimilarity(v, v)` is the number `1` in exact real arithmetic. -/
theorem cosineSimilarity_self (v : List ℝ) (hv : ∃ x ∈ v, x ≠ 0) :
    cosineSimilarity Real.sqrt v v = JSNum.fin 1 :=
  cosineSimilarity_same v (sqSum_pos_of_exists v hv)

/-- C7, witness: the amended statement at `v = [3, 4]`. -/
theorem cosineSimilarity_self_witness :
    (∃ x ∈ ([3, 4] : List ℝ), x ≠ 0) ∧
      cosineSimilarity Real.sqrt ([3, 4] : List ℝ) [3, 4] = JSNum.fin 1 :=
  ⟨⟨3, by simp, by norm_num⟩, cosineSimilarity_self [3, 4] ⟨3, by simp, by norm_num⟩⟩

/-- C8, counterexample: for the zero vector `[0, 0]` both norms are `0`, so
`cosineSimilarity([0, 0], -[0, 0])` is NaN and not `-1`. -/
theorem cosineSimilarity_neg_zero_vector :
    cosineSimilarity Real.sqrt ([0, 0] : List ℝ) (negVec [0, 0]) = JSNum.nan ∧
      cosineSimilarity Real.sqrt ([0, 0] : List ℝ) (negVec [0, 0]) ≠ JSNum.fin (-1) := by
  have h : cosineSimilarity Real.sqrt ([0, 0] : List ℝ) (negVec [0, 0]) = JSNum.nan :=
    cosineSimilarity_zero _ _ (Or.inl (by simp [sqSum]))
  exact ⟨h, by rw [h]; exact fun hc => JSNum.noConfusion hc⟩

/-- C8, amended: for every vector `v` with at least one non-zero entry,
`cosineSimilarity(v, -v)` is the number `-1` in exact real arithmetic. -/
theorem cosineSimilarity_neg (v : List ℝ) (hv : ∃ x ∈ v, x ≠ 0) :
    cosineSimilarity Real.sqrt v (negVec v) = JSNum.fin (-1) := by
  have hpos := sqSum_pos_of_exists v hv
  have hlen : v.length ≤ (negVec v).length := by simp [negVec]
  rw [cosineSimilarity_fin v (negVec v) hlen hpos (by rw [sqSum_negVec]; exact hpos),
    dotSum_negVec, sqSum_negVec, Real.mul_self_sqrt hpos.le, neg_div, div_self hpos.ne.symm]

/-- C8, witness: the amended statement at `v = [1, -2]`. -/
theorem cosineSimilarity_neg_witness :
    (∃ x ∈ ([1, -2] : List ℝ), x ≠ 0) ∧
      cosineSimilarity Real.sqrt ([1, -2] : List ℝ) (negVec [1, -2]) = JSNum.fin (-1) :=
  ⟨⟨1, by simp, by norm_num⟩, cosineSimilarity_neg [1, -2] ⟨1, by simp, by norm_num⟩⟩

/-- C10, counterexample: for the equal-length vectors `[0, 0]` and `[1, 2]`
the code returns NaN, which is no number of the interval `[-1, 1]`. -/
theorem cosineSimilarity_range_zero_vector :
    ([0, 0] : List ℝ).length = ([1, 2] : List ℝ).length ∧
      cosineSimilarity Real.sqrt ([0, 0] : List ℝ) [1, 2] = JSNum.nan ∧
      ¬ ∃ x : ℝ, cosineSimilarity Real.sqrt ([0, 0] : List ℝ) [1, 2] = JSNum.fin x ∧
        -1 ≤ x ∧ x ≤ 1 := by
  have h : cosineSimilarity Real.sqrt ([0, 0] : List ℝ) [1, 2] = JSNum.nan :=
    cosineSimilarity_zero _ _ (Or.inl (by simp [sqSum]))
  refine ⟨rfl, h, ?_⟩
  rintro ⟨x, hx, -⟩
  rw [h] at hx
  exact JSNum.noConfusion hx

/-- C10, amended: for every pair of vectors `a` and `b` of equal length, each
with at least one non-zero entry, `cosineSimilarity(a, b)` is a number of the
closed interval `[-1, 1]` in exact real arithmetic. -/
theorem cosineSimilarity_range (a b : List ℝ) (hlen : a.length = b.length)
    (ha : ∃ x ∈ a, x ≠ 0) (hb : ∃ x ∈ b, x ≠ 0) :
    ∃ x : ℝ, cosineSimilarity Real.sqrt a b = JSNum.fin x ∧ -1 ≤ x ∧ x ≤ 1 := by
  rcases cosineSimilarity_cases a b with h | h
  · rw [cosineSimilarity_fin a b hlen.le (sqSum_pos_of_exists a ha)
      (sqSum_pos_of_exists b hb)] at h
    exact JSNum.noConfusion h
  · exact h

/-- C10, witness: the amended statement at `a = [1, 2]`, `b = [-3, 5]`. -/
theorem cosineSimilarity_range_witness :
    ([1, 2] : List ℝ).length = ([-3, 5] : List ℝ).length ∧
      (∃ x ∈ ([1, 2] : List ℝ), x ≠ 0) ∧ (∃ x ∈ ([-3, 5] : List ℝ), x ≠ 0) ∧
      ∃ x : ℝ, cosineSimilarity Real.sqrt ([1, 2] : List ℝ) [-3, 5] = JSNum.fin x ∧
        -1 ≤ x ∧ x ≤ 1 :=
  ⟨rfl, ⟨1, by simp, by norm_num⟩, ⟨5, by simp, by norm_num⟩,
    cosineSimilarity_range [1, 2] [-3, 5] rfl ⟨1, by simp, by norm_num⟩
      ⟨5, by simp, by norm_num⟩⟩

/-- C6, counterexample: on binary64 the answer changes when a candidate is
scaled by a positive constant.  Rounding: for the query `[1, 1]` and the
candidates `[[1, 1], [1, 1]]` both similarities are `1 - 2 ^ (-52)` and
candidate `0` is selected, but with candidate `1` scaled by `3` its similarity
is `1` and candidate `1` is selected.  Overflow: for the query `[1, 0]` and
the candidates `[[3, 4], [1, 0]]` candidate `1` is selected, but with
candidate `1` scaled by `2 ^ 600` its norm is infinite, its similarity `0`,
and candidate `0` is selected.  The scaled entries are exact products. -/
theorem bestMatchF64_scale_changes :
    (0 : ℚ) < 3 ∧
      scaleRow (3 : ℚ) 1 [[1, 1], [1, 1]] = [[1, 1], [3, 3]] ∧
      roundDouble (3 * 1) = JSNum.fin 3 ∧
      bestMatchF64 answers [1, 1] [[1, 1], [1, 1]]
        = some "The capital of France is Paris." ∧
      bestMatchF64 answers [1, 1] (scaleRow 3 1 [[1, 1], [1, 1]])
        = some "The tallest mountain in the world is Mount Everest." ∧
      (0 : ℚ) < 2 ^ 600 ∧
      scaleRow ((2 : ℚ) ^ 600) 1 [[3, 4], [1, 0]] = [[3, 4], [2 ^ 600, 0]] ∧
      roundDouble (2 ^ 600 * 1) = JSNum.fin (2 ^ 600) ∧
      bestMatchF64 answers [1, 0] [[3, 4], [1, 0]]
        = some "The tallest mountain in the world is Mount Everest." ∧
      bestMatchF64 answers [1, 0] (scaleRow (2 ^ 600) 1 [[3, 4], [1, 0]])
        = some "The capital of France is Paris." := by
  decide!

/-- C6, amended: in exact real arithmetic (no rounding, no overflow), for
every query, every candidate list, every index `k` and every constant `c > 0`,
replacing `candidates[k]` by `c * candidates[k]` leaves the answer selected by
the similarity search unchanged. -/
theorem bestMatch_scale_invariant (answers : List String) (query : List ℝ)
    (candidates : List (List ℝ)) (k : Nat) (c : ℝ) (hc : 0 < c) :
    bestMatch Real.sqrt answers query (scaleRow c k candidates)
      = bestMatch Real.sqrt answers query candidates := by
  unfold bestMatch
  rw [scanFrom_scaleRow c hc]

/-- C6, witness: scaling the second of three candidates by `5`. -/
theorem bestMatch_scale_invariant_witness :
    (0 : ℝ) < 5 ∧
      bestMatch Real.sqrt answers [1, 0] (scaleRow 5 1 [[0, 1], [1, 1], [1, 0]])
        = bestMatch Real.sqrt answers [1, 0] [[0, 1], [1, 1], [1, 0]] :=
  ⟨by norm_num, bestMatch_scale_invariant answers [1, 0] [[0, 1], [1, 1], [1, 0]] 1 5
    (by norm_num)⟩

end CosineClaims

/-! ## Claims about the similarity search -/

section SearchClaims

/-- C1: for every query vector and every non-empty list of candidate
embeddings index-aligned with the answers, where every cosine similarity is
a defined number `sim j`, the search returns `answers[i]` for the least
index `i` of greatest similarity: `sim i ≥ sim j` for every `j` and
`sim i > sim j` for every `j < i`. -/
theorem bestMatch_first_greatest {α : Type} [LinearOrderedField α] (sqrt : α → α)
    (answers : List String) (query : List α) (candidates : List (List α)) (sim : Nat → α)
    (hne : candidates ≠ []) (hlen : candidates.length = answers.length)
    (hsim : ∀ j (hj : j < candidates.length),
      cosineSimilarity sqrt query (candidates.get ⟨j, hj⟩) = JSNum.fin (sim j)) :
    ∃ i, ∃ hi : i < answers.length,
      bestMatch sqrt answers query candidates = some (answers.get ⟨i, hi⟩) ∧
      (∀ j, j < candidates.length → sim j ≤ sim i) ∧
      (∀ j, j < i → sim j < sim i) := by
  have hpos : 0 < candidates.length := List.length_pos.mpr hne
  have hsim0 : ∀ k (hk : k < candidates.length),
      cosineSimilarity sqrt query (candidates.get ⟨k, hk⟩) = JSNum.fin (sim (0 + k)) := by
    intro k hk
    rw [Nat.zero_add]
    exact hsim k hk
  rcases scanFrom_spec sqrt answers query sim candidates 0 JSNum.negInf (some "") hsim0
    with ⟨-, hall⟩ | ⟨k, hk, heq, -, hmax, hfirst⟩
  · have := hall 0 hpos
    simp [JSNum.gt] at this
  · simp only [Nat.zero_add] at heq hmax hfirst
    have hk2 : k < answers.length := hlen ▸ hk
    refine ⟨k, hk2, ?_, hmax, hfirst⟩
    unfold bestMatch
    rw [heq]
    simp [List.get?_eq_get hk2]

/-- The similarities of the unit vectors used in the examples below. -/
theorem cosineSimilarity_examples :
    cosineSimilarity Real.sqrt ([1, 0] : List ℝ) [0, 1] = JSNum.fin 0 ∧
      cosineSimilarity Real.sqrt ([1, 0] : List ℝ) [1, 0] = JSNum.fin 1 ∧
      cosineSimilarity Real.sqrt ([1, 0] : List ℝ) [-1, 0] = JSNum.fin (-1) := by
  refine ⟨?_, ?_, ?_⟩
  · rw [cosineSimilarity_fin _ _ (by simp) (by norm_num [sqSum]) (by norm_num [sqSum])]
    norm_num [dotSum, sqSum]
  · rw [cosineSimilarity_fin _ _ (by simp) (by norm_num [sqSum]) (by norm_num [sqSum])]
    norm_num [dotSum, sqSum]
  · rw [cosineSimilarity_fin _ _ (by simp) (by norm_num [sqSum]) (by norm_num [sqSum])]
    norm_num [dotSum, sqSum]

/-- C1, witness: the query `[1, 0]` against four candidates of similarities
`0, 1, 1, -1`, aligned with the four fixed answers. -/
theorem bestMatch_first_greatest_witness :
    ([[0, 1], [1, 0], [1, 0], [-1, 0]] : List (List ℝ)) ≠ [] ∧
      ([[0, 1], [1, 0], [1, 0], [-1, 0]] : List (List ℝ)).length = answers.length ∧
      ∃ i, ∃ hi : i < answers.length,
        bestMatch Real.sqrt answers ([1, 0] : List ℝ) [[0, 1], [1, 0], [1, 0], [-1, 0]]
          = some (answers.get ⟨i, hi⟩) ∧
        (∀ j, j < ([[0, 1], [1, 0], [1, 0], [-1, 0]] : List (List ℝ)).length →
          (fun j => if j = 0 then (0 : ℝ) else if j = 3 then -1 else 1) j
            ≤ (fun j => if j = 0 then (0 : ℝ) else if j = 3 then -1 else 1) i) ∧
        (∀ j, j < i →
          (fun j => if j = 0 then (0 : ℝ) else if j = 3 then -1 else 1) j
            < (fun j => if j = 0 then (0 : ℝ) else if j = 3 then -1 else 1) i) :=
  ⟨by simp, rfl,
    bestMatch_first_greatest Real.sqrt answers [1, 0] [[0, 1], [1, 0], [1, 0], [-1, 0]]
      (fun j => if j = 0 then (0 : ℝ) else if j = 3 then -1 else 1) (by simp) rfl
      (by
        intro j hj
        have hj4 : j < 4 := hj
        interval_cases j
        · simpa using cosineSimilarity_examples.1
        · simpa using cosineSimilarity_examples.2.1
        · simpa using cosineSimilarity_examples.2.1
        · simpa using cosineSimilarity_examples.2.2)⟩

theorem gt_one_false_of_cases (a b : List ℝ) :
    (cosineSimilarity Real.sqrt a b).gt (JSNum.fin 1) = false := by
  rcases cosineSimilarity_cases a b with h | ⟨x, h, -, hx⟩
  · rw [h]; rfl
  · rw [h]
    simpa [JSNum.gt] using hx

theorem one_gt_of_ne_one (a b : List ℝ) (m0 : JSNum ℝ)
    (hne : cosineSimilarity Real.sqrt a b ≠ JSNum.fin 1)
    (hgt : (cosineSimilarity Real.sqrt a b).gt m0 = true) :
    (JSNum.fin (1 : ℝ)).gt (cosineSimilarity Real.sqrt a b) = true := by
  rcases cosineSimilarity_cases a b with h | ⟨x, h, -, hx⟩
  · rw [h] at hgt
    simp [JSNum.gt] at hgt
  · rw [h] at hne ⊢
    have hx1 : x ≠ 1 := fun hc => hne (by rw [hc])
    simpa [JSNum.gt] using lt_of_le_of_ne hx hx1

/-- C5, counterexample: self-match fails at index `2` of four candidates
aligned with the four fixed answers, on binary64 and in exact arithmetic.
With candidates `[[2, 0], [0, 1], [1, 0], [-1, 0]]` the query `[1, 0]` already
has similarity `1` with candidate `0`, a positive multiple of it, and the first
maximum wins: the search returns `answers[0]`.  With candidates
`[[1, 0], [0, 1], [0, 0], [-1, 0]]` the query is the zero vector, every
similarity is NaN and the search returns the initial empty string.  With
candidates `[[0, 1], [-1, 0], [1, 1], [3, 3]]` the query `[1, 1]` is non-zero
and no earlier candidate has similarity `1` with it, but on binary64 its
similarity with itself is `1 - 2 ^ (-52)` and with `[3, 3]` it is `1`: the
search returns `answers[3]`. -/
theorem bestMatch_self_fails :
    answers.get? 2 = some "The square root of 64 is 8." ∧
      bestMatchF64 answers [1, 0] [[2, 0], [0, 1], [1, 0], [-1, 0]]
        = some "The capital of France is Paris." ∧
      bestMatchF64 answers [0, 0] [[1, 0], [0, 1], [0, 0], [-1, 0]] = some "" ∧
      bestMatchF64 answers [1, 1] [[0, 1], [-1, 0], [1, 1], [3, 3]]
        = some "Python is a popular programming language." ∧
      cosineSimilarityF64 [1, 1] [0, 1] ≠ JSNum.fin 1 ∧
      cosineSimilarityF64 [1, 1] [-1, 0] ≠ JSNum.fin 1 ∧
      cosineSimilarity Real.sqrt ([1, 1] : List ℝ) [0, 1] ≠ JSNum.fin 1 ∧
      cosineSimilarity Real.sqrt ([1, 1] : List ℝ) [-1, 0] ≠ JSNum.fin 1 ∧
      bestMatch Real.sqrt answers ([1, 0] : List ℝ) [[2, 0], [0, 1], [1, 0], [-1, 0]]
        = some "The capital of France is Paris." ∧
      bestMatch Real.sqrt answers ([0, 0] : List ℝ) [[1, 0], [0, 1], [0, 0], [-1, 0]]
        = some "" := by
  have h20 : cosineSimilarity Real.sqrt ([1, 0] : List ℝ) [2, 0] = JSNum.fin 1 := by
    have h := cosineSimilarity_scaleVec 2 (by norm_num) ([1, 0] : List ℝ) [1, 0]
    rw [cosineSimilarity_examples.2.1] at h
    simpa [scaleVec] using h
  have hz : ∀ b : List ℝ, cosineSimilarity Real.sqrt ([0, 0] : List ℝ) b = JSNum.nan :=
    fun b => cosineSimilarity_zero _ _ (Or.inl (by simp [sqSum]))
  have hle : ∀ b : List ℝ, b.length = 2 → 0 < sqSum b →
      dotSum ([1, 1] : List ℝ) b ^ 2 ≠ 2 * sqSum b →
      cosineSimilarity Real.sqrt ([1, 1] : List ℝ) b ≠ JSNum.fin 1 := by
    intro b hb hpos hne hc
    have h2 : (0 : ℝ) < sqSum ([1, 1] : List ℝ) := by norm_num [sqSum]
    rw [cosineSimilarity_fin _ _ (by simp [hb]) h2 hpos] at hc
    have hden : 0 < Real.sqrt (sqSum ([1, 1] : List ℝ)) * Real.sqrt (sqSum b) :=
      mul_pos (Real.sqrt_pos.mpr h2) (Real.sqrt_pos.mpr hpos)
    have heq := (div_eq_one_iff_eq hden.ne.symm).mp (JSNum.fin.inj hc)
    have hsq : dotSum ([1, 1] : List ℝ) b ^ 2 = sqSum ([1, 1] : List ℝ) * sqSum b := by
      rw [heq, mul_pow, Real.sq_sqrt h2.le, Real.sq_sqrt hpos.le]
    have hb2 : sqSum ([1, 1] : List ℝ) = 2 := by norm_num [sqSum]
    rw [hb2] at hsq
    exact hne hsq
  refine ⟨rfl, by decide!, by decide!, by decide!, by decide!, by decide!, ?_, ?_, ?_, ?_⟩
  · exact hle [0, 1] rfl (by norm_num [sqSum]) (by norm_num [dotSum, sqSum])
  · exact hle [-1, 0] rfl (by norm_num [sqSum]) (by norm_num [dotSum, sqSum])
  · norm_num [bestMatch, scanFrom, h20, cosineSimilarity_examples, JSNum.gt, answers]
  · simp [bestMatch, scanFrom, hz, JSNum.gt]

/-- C5, amended: in exact real arithmetic (no rounding, no overflow), for
every list of candidate embeddings index-aligned with the answers and every
valid index `i` such that `candidates[i]` has a non-zero entry and no earlier
candidate has cosine similarity `1` with it, the search with the query
`candidates[i]` returns `answers[i]`; for the four fixed answers and `i = 2`
the result is "The square root of 64 is 8.". -/
theorem bestMatch_self (answers : List String) (candidates : List (List ℝ)) (i : Nat)
    (hlen : candidates.length = answers.length) (hi : i < candidates.length)
    (hnz : ∃ x ∈ candidates.get ⟨i, hi⟩, x ≠ 0)
    (hfirst : ∀ j (hj : j < i),
      cosineSimilarity Real.sqrt (candidates.get ⟨i, hi⟩)
        (candidates.get ⟨j, lt_trans hj hi⟩) ≠ JSNum.fin 1) :
    bestMatch Real.sqrt answers (candidates.get ⟨i, hi⟩) candidates
        = some (answers.get ⟨i, hlen ▸ hi⟩) ∧
      (answers = UseQa.answers → i = 2 →
        bestMatch Real.sqrt answers (candidates.get ⟨i, hi⟩) candidates
          = some "The square root of 64 is 8.") := by
  suffices hmain : bestMatch Real.sqrt answers (candidates.get ⟨i, hi⟩) candidates
      = some (answers.get ⟨i, hlen ▸ hi⟩) by
    refine ⟨hmain, ?_⟩
    intro ha h2
    subst ha
    subst h2
    rw [hmain]
    rfl
  have hi2 : i < answers.length := hlen ▸ hi
  have hsplit : candidates
      = candidates.take i ++ candidates.get ⟨i, hi⟩ :: candidates.drop (i + 1) := by
    simp
  have htake : (candidates.take i).length = i := by
    rw [List.length_take]; omega
  have hpre : ∀ row ∈ candidates.take i,
      cosineSimilarity Real.sqrt (candidates.get ⟨i, hi⟩) row ≠ JSNum.fin 1 := by
    intro row hrow
    obtain ⟨n, hn, rfl⟩ := List.mem_iff_getElem.mp hrow
    have hn2 : n < i ∧ n < candidates.length := by simpa [List.length_take] using hn
    have := hfirst n hn2.1
    simpa [List.getElem_take] using this
  generalize hq : candidates.get ⟨i, hi⟩ = q at hnz hpre hsplit
  have hinv := scanFrom_max_invariant Real.sqrt answers q
    (fun m => (JSNum.fin (1 : ℝ)).gt m = true) (candidates.take i) 0 JSNum.negInf (some "")
    rfl (fun row hrow m0 hgt => one_gt_of_ne_one q row m0 (hpre row hrow) hgt)
  unfold bestMatch
  conv_lhs => rw [hsplit]
  rw [scanFrom_append, htake, Nat.zero_add]
  generalize scanFrom Real.sqrt answers q (candidates.take i) 0 (JSNum.negInf, some "") = st
    at hinv
  obtain ⟨m, b⟩ := st
  rw [scanFrom_cons, cosineSimilarity_same q (sqSum_pos_of_exists q hnz), if_pos hinv,
    scanFrom_no_gt Real.sqrt answers q _ _ _ _ (fun row _ => gt_one_false_of_cases q row)]
  simp [List.get?_eq_get hi2]

/-- C5, witness: four candidates aligned with the four fixed answers and
`i = 2`; the search with the query `candidates[2]` returns
"The square root of 64 is 8.". -/
theorem bestMatch_self_witness :
    ([[-1, 0], [0, 1], [1, 0], [1, 0]] : List (List ℝ)).length = answers.length ∧
      (∃ x ∈ ([1, 0] : List ℝ), x ≠ 0) ∧
      cosineSimilarity Real.sqrt ([1, 0] : List ℝ) [-1, 0] ≠ JSNum.fin 1 ∧
      cosineSimilarity Real.sqrt ([1, 0] : List ℝ) [0, 1] ≠ JSNum.fin 1 ∧
      bestMatch Real.sqrt answers ([1, 0] : List ℝ) [[-1, 0], [0, 1], [1, 0], [1, 0]]
        = some "The square root of 64 is 8." := by
  have h0 : cosineSimilarity Real.sqrt ([1, 0] : List ℝ) [-1, 0] ≠ JSNum.fin 1 := by
    rw [cosineSimilarity_examples.2.2]
    intro hc
    have := JSNum.fin.inj hc
    norm_num at this
  have h1 : cosineSimilarity Real.sqrt ([1, 0] : List ℝ) [0, 1] ≠ JSNum.fin 1 := by
    rw [cosineSimilarity_examples.1]
    intro hc
    have := JSNum.fin.inj hc
    norm_num at this
  refine ⟨rfl, ⟨1, by simp, by norm_num⟩, h0, h1, ?_⟩
  exact (bestMatch_self answers [[-1, 0], [0, 1], [1, 0], [1, 0]] 2 rfl (by decide)
    ⟨1, by simp, by norm_num⟩
    (by
      intro j hj
      interval_cases j
      · simpa using h0
      · simpa using h1)).2 rfl rfl

end SearchClaims

/-! ## Claims about the handlers and the start-up sequence -/

section HandlerClaims

theorem reachable_modelOnlyState {α : Type} (m : Model α) :
    Reachable (modelOnlyState m) :=
  Reachable.step Reachable.init (Step.modelLoaded (initialState α) m rfl)

theorem reachable_readyState {α : Type} (m : Model α) : Reachable (readyState m) :=
  Reachable.step (reachable_modelOnlyState m)
    (Step.embeddingsStored (modelOnlyState m) m rfl rfl)

/-- The guard of `/answer`: the request is turned away exactly when
`question` is missing or empty or `model` is unset. -/
theorem answerHandler_badRequest_iff {α : Type} [LinearOrderedField α] (sqrt : α → α)
    (st : ServerState α) (question : Option String) :
    answerHandler sqrt st question = Response.badRequest ↔
      (question = none ∨ question = some "" ∨ st.model = none) := by
  unfold answerHandler
  cases question with
  | none => simp
  | some q =>
    cases hm : st.model with
    | none => simp
    | some m =>
      by_cases hq : q = ""
      · simp [falsy, hq]
      · cases hrow : (m.embed [q]).head? with
        | none =>
          by_cases he : st.answerEmbeddings.isEmpty = true <;> simp [falsy, hq, he, hrow]
        | some row => simp [falsy, hq, hrow]

/-- C2, the code at the failing input: between the two start-up callbacks,
a reachable state that is not Ready, `POST /answer` with a non-empty question
is not rejected; it responds 200 with the empty string as answer. -/
theorem answerHandler_before_embeddings {α : Type} [LinearOrderedField α] (sqrt : α → α)
    (m : Model α) :
    Reachable (modelOnlyState m) ∧ ¬ Ready (modelOnlyState m) ∧
      answerHandler sqrt (modelOnlyState m) (some "What is the capital of France?")
        = Response.ok (some "") ∧
      (answerHandler sqrt (modelOnlyState m)
        (some "What is the capital of France?")).status = some 200 := by
  have hans : answerHandler sqrt (modelOnlyState m) (some "What is the capital of France?")
      = Response.ok (some "") := by
    unfold answerHandler
    cases hrow : (m.embed ["What is the capital of France?"]).head? with
    | none => simp [modelOnlyState, falsy, hrow]
    | some row => simp [modelOnlyState, falsy, hrow, bestMatch, scanFrom]
  refine ⟨reachable_modelOnlyState m, ?_, hans, by rw [hans]; rfl⟩
  rintro ⟨m0, -, -, hlen⟩
  simp [modelOnlyState, answers] at hlen

/-- C3: `POST /embed` responds with status 400 if and only if `text` is
missing or empty or the model is not yet loaded; in every other case it
responds 200 with `embeddings` the first row of `model.embed([text])`. -/
theorem embedHandler_spec {α : Type} (st : ServerState α) (text : Option String) :
    ((embedHandler st text).status = some 400 ↔
        (text = none ∨ text = some "" ∨ st.model = none)) ∧
      (∀ t m, text = some t → t ≠ "" → st.model = some m →
        embedHandler st text = Response.ok (m.embed [t]).head? ∧
        (embedHandler st text).status = some 200) := by
  constructor
  · unfold embedHandler
    cases text with
    | none => simp [Response.status]
    | some t =>
      cases hm : st.model with
      | none => simp [Response.status]
      | some m =>
        by_cases ht : t = "" <;> simp [falsy, ht, Response.status]
  · intro t m htext ht hm
    subst htext
    have h : embedHandler st (some t) = Response.ok (m.embed [t]).head? := by
      unfold embedHandler
      simp [hm, falsy, ht]
    exact ⟨h, by rw [h]; rfl⟩

/-- C3, witness: the text "hi" with a loaded model. -/
theorem embedHandler_spec_witness :
    (some "hi" : Option String) = some "hi" ∧ "hi" ≠ "" ∧
      (readyState constModel).model = some constModel ∧
      embedHandler (readyState constModel) (some "hi") = Response.ok (some [1, 0]) :=
  ⟨rfl, by decide, rfl,
    ((embedHandler_spec (readyState constModel) (some "hi")).2 "hi" constModel rfl
      (by decide) rfl).1⟩

/-- C4, the code at the failing input: between the two start-up callbacks the
candidate set is empty, the search over it returns the initial empty string,
and `POST /answer` surfaces no error: it responds with status 200, not with a
4xx status, and `''` as the answer. -/
theorem answerHandler_empty_candidates {α : Type} [LinearOrderedField α] (sqrt : α → α)
    (m : Model α) (query : List α) :
    Reachable (modelOnlyState m) ∧ (modelOnlyState m).answerEmbeddings = [] ∧
      bestMatch sqrt answers query (modelOnlyState m).answerEmbeddings = some "" ∧
      answerHandler sqrt (modelOnlyState m) (some "Which language is popular?")
        = Response.ok (some "") ∧
      (answerHandler sqrt (modelOnlyState m) (some "Which language is popular?")).status
        = some 200 ∧
      ¬ ∃ code, (answerHandler sqrt (modelOnlyState m)
          (some "Which language is popular?")).status = some code ∧ 400 ≤ code ∧ code < 500 := by
  have hans : answerHandler sqrt (modelOnlyState m) (some "Which language is popular?")
      = Response.ok (some "") := by
    unfold answerHandler
    cases hrow : (m.embed ["Which language is popular?"]).head? with
    | none => simp [modelOnlyState, falsy, hrow]
    | some row => simp [modelOnlyState, falsy, hrow, bestMatch, scanFrom]
  refine ⟨reachable_modelOnlyState m, rfl, rfl, hans, by rw [hans]; rfl, ?_⟩
  rw [hans]
  rintro ⟨code, hcode, h400, -⟩
  have h200 : code = 200 := (Option.some.inj hcode).symm
  omega

/-- C9, counterexample: the state at module initialisation is reachable and
caches no embedding, while there are four answers. -/
theorem initialState_not_aligned :
    Reachable (initialState ℝ) ∧ (initialState ℝ).answerEmbeddings.length = 0 ∧
      answers.length = 4 ∧
      (initialState ℝ).answerEmbeddings.length ≠ answers.length :=
  ⟨Reachable.init, rfl, rfl, by decide⟩

/-- C9, amended: in every reachable state either no model is loaded and the
cache is empty, or a model is loaded and the cache is either still empty or
exactly `model.embed(answers)`, row `i` being the row the model returned for
`answers[i]`; in the last case, when the model returns one row per input
string, the number of cached embeddings equals the number of answers. -/
theorem reachable_cache_aligned {α : Type} (st : ServerState α) (h : Reachable st) :
    (st.model = none ∧ st.answerEmbeddings = []) ∨
      ∃ m, st.model = some m ∧
        (st.answerEmbeddings = [] ∨
          (st.answerEmbeddings = m.embed answers ∧
            ((m.embed answers).length = answers.length →
              st.answerEmbeddings.length = answers.length))) := by
  induction h with
  | init => exact Or.inl ⟨rfl, rfl⟩
  | step _ hstep ih =>
    cases hstep with
    | modelLoaded m hnone =>
      rcases ih with ⟨-, hemp⟩ | ⟨m0, hm0, -⟩
      · exact Or.inr ⟨m, rfl, Or.inl hemp⟩
      · rw [hnone] at hm0
        exact Option.noConfusion hm0
    | embeddingsStored m hm hemp =>
      exact Or.inr ⟨m, hm, Or.inr ⟨rfl, fun hlen => hlen⟩⟩

/-- C9, witness: the state after both start-up callbacks, for the model that
returns `[1, 0]` for every string. -/
theorem reachable_cache_aligned_witness :
    Reachable (readyState constModel) ∧
      (((readyState constModel).model = none ∧
          (readyState constModel).answerEmbeddings = []) ∨
        ∃ m, (readyState constModel).model = some m ∧
          ((readyState constModel).answerEmbeddings = [] ∨
            ((readyState constModel).answerEmbeddings = m.embed answers ∧
              ((m.embed answers).length = answers.length →
                (readyState constModel).answerEmbeddings.length = answers.length)))) :=
  ⟨reachable_readyState constModel,
    reachable_cache_aligned (readyState constModel) (reachable_readyState constModel)⟩

end HandlerClaims

end UseQa
